import Mathlib

/-!
Shallow embedding of the figure/table caption-driven region extraction of the
RAG repository (src/ingestion/pdfParser.py, src/ingestion/extractors/image.py,
src/ingestion/parser.py, src/ingestion/loader.py).

Conventions of the embedding:
* page coordinates and dimensions are rationals (the Python code computes with
  floats; every constant involved — 0.25, 0.4, 0.1, 0.3, 10 — is modelled
  exactly as a rational);
* the Python regular expressions used by the code are implemented directly as
  character-list functions with the same backtracking order (alternatives
  tried left to right, greedy star/plus; case folding is modelled on ASCII
  letters, and the `\s` / `str.strip` whitespace class is modelled by the
  ASCII whitespace characters);
* exceptions are modelled by `Except` values, and the `try/except` blocks of
  the code by the corresponding `match`es;
* the opaque payload returned by the third-party PDF parsers is modelled by a
  `Nat` token carried in the file-system model.
-/

namespace RAG

/-! ### Character classes (Python `\s`, `\d`, `[A-Za-z]`, IGNORECASE) -/

/-- Python `\s` whitespace class, modelled on ASCII. -/
def pySpace (c : Char) : Bool :=
  c == ' ' || c == '\t' || c == '\n' || c == '\r' || c == '\x0b' || c == '\x0c'

/-- Python `\d`, modelled on ASCII digits. -/
def isDigitC (c : Char) : Bool :=
  '0' ≤ c && c ≤ '9'

/-- The character class `[A-Za-z]`. -/
def isAlphaC (c : Char) : Bool :=
  ('A' ≤ c && c ≤ 'Z') || ('a' ≤ c && c ≤ 'z')

/-- ASCII lower-casing, modelling `re.IGNORECASE` comparison. -/
def lowerC (c : Char) : Char :=
  if 'A' ≤ c && c ≤ 'Z' then Char.ofNat (c.toNat + 32) else c

/-- Consume the literal `pat` case-insensitively from the front of `s`,
returning the remaining characters. -/
def dropLitCI : List Char → List Char → Option (List Char)
  | [], s => some s
  | _ :: _, [] => none
  | p :: ps, c :: cs => if lowerC c == lowerC p then dropLitCI ps cs else none

/-! ### The regular expressions of the caption detectors -/

/-- Rests after the keyword alternation `(Figure|Fig\.?)`, in the regex engine's
backtracking order. -/
def figKwRests (s : List Char) : List (List Char) :=
  (dropLitCI "figure".data s).toList ++ (dropLitCI "fig.".data s).toList ++
    (dropLitCI "fig".data s).toList

/-- Rests after the keyword alternation `(Figure|Fig\.)` (dot required), used by
the classifier regex of `extract_images`. -/
def figKwRestsStrict (s : List Char) : List (List Char) :=
  (dropLitCI "figure".data s).toList ++ (dropLitCI "fig.".data s).toList

/-- Rests after the literal keyword `Table`. -/
def tableKwRests (s : List Char) : List (List Char) :=
  (dropLitCI "table".data s).toList

/-- Does `s` start with `\s+\d+`? (Greedy matching is faithful here: none of
the continuations used below can match a whitespace or digit character.) -/
def startsSpacesDigits (s : List Char) : Bool :=
  match s with
  | [] => false
  | c :: cs =>
    pySpace c &&
      (match cs.dropWhile pySpace with
       | d :: _ => isDigitC d
       | [] => false)

/-- `re.search(r'^(Figure|Fig\.)\s+\d+', text, re.IGNORECASE)` as a Bool
(the classifier check of `extract_images`). -/
def figStartIm (text : List Char) : Bool :=
  (figKwRestsStrict text).any startsSpacesDigits

/-- `re.search(r'^Table\s+\d+', text, re.IGNORECASE)` as a Bool. -/
def tableStartIm (text : List Char) : Bool :=
  (tableKwRests text).any startsSpacesDigits

/-- Match `\s*(\d+[A-Za-z]?)` at the front of `r`, returning the capture. -/
def numAfter (r : List Char) : Option (List Char) :=
  let r1 := r.dropWhile pySpace
  let ds := r1.takeWhile isDigitC
  if ds.isEmpty then none
  else
    match r1.drop ds.length with
    | c :: _ => if isAlphaC c then some (ds ++ [c]) else some ds
    | [] => some ds

/-- Try `(Figure|Fig\.?)\s*(\d+[A-Za-z]?)` at the current position, returning
the second capture group. -/
def tryFigNumAt (s : List Char) : Option (List Char) :=
  (figKwRests s).findSome? numAfter

/-- Try `Table\s*(\d+[A-Za-z]?)` at the current position. -/
def tryTableNumAt (s : List Char) : Option (List Char) :=
  (tableKwRests s).findSome? numAfter

/-- `re.search(r'(Figure|Fig\.?)\s*(\d+[A-Za-z]?)', text, re.IGNORECASE)`,
returning group 2 of the leftmost match — the ordinal-extraction regex shared
by every variant. -/
def searchFigNum : List Char → Option (List Char)
  | [] => none
  | c :: tl =>
    match tryFigNumAt (c :: tl) with
    | some n => some n
    | none => searchFigNum tl

/-- `re.search(r'Table\s*(\d+[A-Za-z]?)', text, re.IGNORECASE)`, returning the
digit-group capture of the leftmost match. -/
def searchTableNum : List Char → Option (List Char)
  | [] => none
  | c :: tl =>
    match tryTableNumAt (c :: tl) with
    | some n => some n
    | none => searchTableNum tl

/-! ### Geometry -/

/-- A bounding box `(x0, y0, x1, y1)` in page coordinates. -/
structure Box where
  x0 : ℚ
  y0 : ℚ
  x1 : ℚ
  y1 : ℚ
deriving DecidableEq

/-- A text block of a page dictionary: block type (0 = text, 1 = image), its
bounding box and the concatenation of its span texts. -/
structure Block where
  type : Nat
  bbox : Box
  text : String
deriving DecidableEq

/-- A detected caption of `extract_images`: bounding box, raw text, ordinal. -/
structure Caption where
  bbox : Box
  text : String
  num : String
deriving DecidableEq

/-- The proximity test of `extract_images`: the caption box `c` is nearby the
anchor box `a` when it lies entirely above or entirely below it with a
vertical gap strictly less than `page_height * 0.25`. -/
def nearbyB (H : ℚ) (a c : Box) : Bool :=
  (decide (c.y1 ≤ a.y0) && decide (a.y0 - c.y1 < H * (1 / 4))) ||
    (decide (c.y0 ≥ a.y1) && decide (c.y0 - a.y1 < H * (1 / 4)))

/-! ### The caption detector of `extract_images` -/

/-- The per-page caption-detection loop of `extract_images`
(`image.py` lines 37–53, identically `pdfParser.py` lines 101–117): every
type-0 block is tested against the Figure classifier first; the Table
classifier is reached only through the `elif`. -/
def detectImPage : List Block → List Caption × List Caption
  | [] => ([], [])
  | b :: bs =>
    let rest := detectImPage bs
    if b.type == 0 then
      let t := b.text.data
      if figStartIm t then
        match searchFigNum t with
        | some n => (⟨b.bbox, b.text, String.mk n⟩ :: rest.1, rest.2)
        | none => rest
      else if tableStartIm t then
        match searchTableNum t with
        | some n => (rest.1, ⟨b.bbox, b.text, String.mk n⟩ :: rest.2)
        | none => rest
      else rest
    else rest

/-! ### The region resolver of `extract_images` -/

inductive Kind where
  | Figure
  | Table
deriving DecidableEq

/-- An extracted region: kind, ordinal and the final clip box handed to
`get_pixmap`. -/
structure Region where
  kind : Kind
  num : String
  bbox : Box
deriving DecidableEq

/-- The caption-union loop `y0 = min(y0, cy0)` over the nearby captions. -/
def expandY0 (y0 : ℚ) (caps : List Caption) : ℚ :=
  caps.foldl (fun y c => min y c.bbox.y0) y0

/-- The caption-union loop `y1 = max(y1, cy1)` over the nearby captions. -/
def expandY1 (y1 : ℚ) (caps : List Caption) : ℚ :=
  caps.foldl (fun y c => max y c.bbox.y1) y1

/-- The output filename chosen by `extract_images` for a region. -/
def outputName (r : Region) : String :=
  (match r.kind with
   | Kind.Figure => "figure_"
   | Kind.Table => "table_") ++ r.num ++ ".png"

/-- The per-image region resolution of `extract_images` (`image.py` lines
79–151): nearby Figure captions are collected first; only when that list is
empty are Table captions consulted; the vertical extent is unioned with all
nearby same-kind captions, padded by 10 and clamped, and the box spans the
full page width. -/
def resolveRegion (H W : ℚ) (figs tabs : List Caption) (img : Box) :
    Option Region :=
  match figs.filter (fun c => nearbyB H img c.bbox) with
  | c0 :: tl =>
    let nf := c0 :: tl
    let u0 := expandY0 img.y0 nf
    let u1 := expandY1 img.y1 nf
    some ⟨Kind.Figure, c0.num, ⟨0, max 0 (u0 - 10), W, min H (u1 + 10)⟩⟩
  | [] =>
    match tabs.filter (fun c => nearbyB H img c.bbox) with
    | c0 :: tl =>
      let nt := c0 :: tl
      let u0 := expandY0 img.y0 nt
      let u1 := expandY1 img.y1 nt
      some ⟨Kind.Table, c0.num, ⟨0, max 0 (u0 - 10), W, min H (u1 + 10)⟩⟩
    | [] => none

/-- One embedded raster image of a page: the bounding box found by the
`get_image_info` xref lookup (if any), and whether rasterizing/saving it
succeeds (`false` models `get_pixmap`/`save` raising). -/
structure ImgItem where
  bboxInfo : Option Box
  rasterOk : Bool
deriving DecidableEq

/-- A rendered page as consumed by `extract_images`. -/
structure PageIm where
  width : ℚ
  height : ℚ
  blocks : List Block
  images : List ImgItem
deriving DecidableEq

/-- The fallback of `extract_images` when the xref lookup found no box: the
box of the first image-typed block of the page dictionary. -/
def fallbackBbox (blocks : List Block) : Option Box :=
  (blocks.find? (fun b => b.type == 1)).map (fun b => b.bbox)

/-- Resolution of the anchor box for one image. -/
def imgBbox (blocks : List Block) (it : ImgItem) : Option Box :=
  match it.bboxInfo with
  | some b => some b
  | none => fallbackBbox blocks

/-- The per-image body of `extract_images`, including its `try/except`: a
missing bounding box skips the image (`continue`), a rasterization failure is
caught and skips the image. -/
def processImgItem (p : PageIm) (figs tabs : List Caption) (it : ImgItem) :
    Option Region :=
  match imgBbox p.blocks it with
  | none => none
  | some b =>
    match resolveRegion p.height p.width figs tabs b with
    | none => none
    | some reg => if it.rasterOk then some reg else none

/-- The per-page loop of `extract_images`. -/
def extractImagesPage (p : PageIm) : List Region :=
  let caps := detectImPage p.blocks
  p.images.filterMap (processImgItem p caps.1 caps.2)

/-- The page loop of `extract_images` over a whole document. -/
def extractImagesDoc (pages : List PageIm) : List Region :=
  (pages.map extractImagesPage).flatten

/-! ### The caption detector of `extract_figures_and_tables` -/

/-- Python `str.strip()`, with the same ASCII whitespace model as `pySpace`. -/
def stripChars (s : List Char) : List Char :=
  ((s.dropWhile pySpace).reverse.dropWhile pySpace).reverse

/-- Consume `\s+\d+` greedily from the front, returning the rest. Greedy
matching is faithful for the five caption patterns: no continuation of `\d+`
there can match a digit, and none of `\s+` can match a whitespace. -/
def afterSpacesDigits (s : List Char) : Option (List Char) :=
  match s with
  | [] => none
  | c :: cs =>
    if pySpace c then
      let r := cs.dropWhile pySpace
      let ds := r.takeWhile isDigitC
      if ds.isEmpty then none else some (r.drop ds.length)
    else none

/-- Tail `\s*[:.]` of caption pattern 1. -/
def tailColonDot (r : List Char) : Bool :=
  match r.dropWhile pySpace with
  | c :: _ => c == ':' || c == '.'
  | [] => false

/-- Tail `\s*[-–]` of caption pattern 2. -/
def tailDash (r : List Char) : Bool :=
  match r.dropWhile pySpace with
  | c :: _ => c == '-' || c == '–'
  | [] => false

/-- Tail `$` of caption pattern 3. -/
def tailEnd (r : List Char) : Bool :=
  r.isEmpty

/-- Tail `[A-Za-z]$` of caption pattern 4. -/
def tailLetterEnd (r : List Char) : Bool :=
  match r with
  | [c] => isAlphaC c
  | _ => false

/-- Tail `[A-Za-z]\s*[:.]` of caption pattern 5 (the table variant's character
class `[:.:]` denotes the same set as `[:.]`). -/
def tailLetterColonDot (r : List Char) : Bool :=
  match r with
  | c :: rest => isAlphaC c && tailColonDot rest
  | [] => false

/-- `re.match` of one caption pattern: a keyword alternative followed by
`\s+\d+` and the pattern's tail, with full backtracking over the keyword
alternatives. -/
def patMatch (kwRests : List Char → List (List Char)) (tail : List Char → Bool)
    (s : List Char) : Bool :=
  (kwRests s).any (fun rest =>
    match afterSpacesDigits rest with
    | some r => tail r
    | none => false)

/-- `any(re.match(p, text, re.IGNORECASE) for p in figure_patterns)` over the
five expanded figure patterns of `extract_figures_and_tables`. -/
def isFigureCaptionFT (s : List Char) : Bool :=
  patMatch figKwRests tailColonDot s || patMatch figKwRests tailDash s ||
    patMatch figKwRests tailEnd s || patMatch figKwRests tailLetterEnd s ||
    patMatch figKwRests tailLetterColonDot s

/-- The analogous check over the five expanded table patterns. -/
def isTableCaptionFT (s : List Char) : Bool :=
  patMatch tableKwRests tailColonDot s || patMatch tableKwRests tailDash s ||
    patMatch tableKwRests tailEnd s || patMatch tableKwRests tailLetterEnd s ||
    patMatch tableKwRests tailLetterColonDot s

/-- A classified caption of `extract_figures_and_tables`: box, stripped text,
ordinal, and the index of the originating block. -/
structure CaptionFT where
  bbox : Box
  text : String
  num : String
  blockIdx : Nat
deriving DecidableEq

/-- The classification loop of `extract_figures_and_tables` over the page's
blocks, carrying `block_idx`; the `continue` after a figure match makes the
table check unreachable for figure-matching blocks. -/
def classifyFTAux : Nat → List Block → List CaptionFT × List CaptionFT
  | _, [] => ([], [])
  | i, b :: bs =>
    let rest := classifyFTAux (i + 1) bs
    if b.type == 0 then
      let t := stripChars b.text.data
      if isFigureCaptionFT t then
        (⟨b.bbox, String.mk t,
            String.mk ((searchFigNum t).getD "unknown".data), i⟩ :: rest.1,
          rest.2)
      else if isTableCaptionFT t then
        (rest.1,
          ⟨b.bbox, String.mk t,
            String.mk ((searchTableNum t).getD "unknown".data), i⟩ :: rest.2)
      else rest
    else rest

/-- The per-page caption classification of `extract_figures_and_tables`. -/
def classifyBlocksFT (blocks : List Block) : List CaptionFT × List CaptionFT :=
  classifyFTAux 0 blocks

/-! ### The capture boxes of `extract_figures_and_tables` -/

/-- The figure capture box of `extract_figures_and_tables`
(`pdfParser.py` lines 336–339): `(0, max(0, cy0 - 0.4 * H), W, cy1 + 10)`.
Only the top edge is clamped. -/
def figCaptureBox (H W : ℚ) (c : Box) : Box :=
  ⟨0, max 0 (c.y0 - H * (4 / 10)), W, c.y1 + 10⟩

/-- The table capture box of `extract_figures_and_tables`
(`pdfParser.py` lines 361–365): both edges clamped. -/
def tableCaptureBox (H W : ℚ) (c : Box) : Box :=
  ⟨0, max 0 (c.y0 - H * (1 / 10)), W, min H (c.y1 + H * (3 / 10))⟩

/-- One page of `extract_figures_and_tables`: classify, then rasterize one
capture box per caption. -/
def extractFTPage (H W : ℚ) (blocks : List Block) :
    List (Kind × String × Box) :=
  let caps := classifyBlocksFT blocks
  caps.1.map (fun c => (Kind.Figure, c.num, figCaptureBox H W c.bbox)) ++
    caps.2.map (fun c => (Kind.Table, c.num, tableCaptureBox H W c.bbox))

/-! ### The directory loaders -/

/-- One file found by the recursive `*.pdf` glob: its path string and the
outcome of handing it to the third-party parser (`_parse_pdf` resp.
`_load_pdf`) — `Except.error` models the parser raising, and the opaque
parsed payload is a `Nat` token. -/
structure PdfFile where
  path : String
  parse : Except String Nat

/-- The externally visible calls `load_from_directory` makes per file. -/
inductive Event where
  | extractFT (p : String)
  | extractImgs (p : String)
  | parsed (p : String)
deriving DecidableEq

/-- Does `hay` start with `needle`? -/
def startsWithChars : List Char → List Char → Bool
  | [], _ => true
  | _ :: _, [] => false
  | n :: ns, h :: hs => n == h && startsWithChars ns hs

/-- Python's substring test `needle in hay`. -/
def containsSubstr (needle : List Char) : List Char → Bool
  | [] => needle.isEmpty
  | c :: t => startsWithChars needle (c :: t) || containsSubstr needle t

/-- The loop body of `pdfParser.Parser.load_from_directory` (lines 31–54) for
one file: paths containing `"_output.pdf"` are skipped before any work;
otherwise both extraction passes run and the file is parsed, a parse failure
being caught by the inner `except` and contributing no document. -/
def processFile (f : PdfFile) : List Event × List Nat :=
  if containsSubstr "_output.pdf".data f.path.data then ([], [])
  else
    ([Event.extractFT f.path, Event.extractImgs f.path, Event.parsed f.path],
      match f.parse with
      | Except.ok d => [d]
      | Except.error _ => [])

/-- The calls performed by the file loop of `pdfParser.load_from_directory`. -/
def loadDirEvents (files : List PdfFile) : List Event :=
  (files.map (fun f => (processFile f).1)).flatten

/-- The documents returned by the file loop of
`pdfParser.load_from_directory`. -/
def loadDirDocs (files : List PdfFile) : List Nat :=
  (files.map (fun f => (processFile f).2)).flatten

/-- The file loop of `loader.Parser.load_from_directory` (lines 33–41): no
`_output.pdf` skip — every globbed file is loaded, per-file failures caught. -/
def loaderLoadFiles (files : List PdfFile) : List Nat :=
  (files.map (fun f =>
    match f.parse with
    | Except.ok d => [d]
    | Except.error _ => [])).flatten

/-- The exception raised by `load_from_directory` on a bad path. -/
inductive PyErr where
  | valueError (msg : String)
deriving DecidableEq

/-- The directory argument: existence and directory-ness of the path, and the
files produced by the recursive glob `dir_path.glob("**/*.pdf")`. -/
structure DirFS where
  pathExists : Bool
  isDirectory : Bool
  pdfFiles : List PdfFile

/-- `pdfParser.Parser.load_from_directory` (lines 16–56): raise `ValueError`
unless the path is an existing directory, then run the file loop (an empty
glob returns the empty document list after a warning). -/
def loadFromDirectory (d : DirFS) : Except PyErr (List Nat) :=
  if d.pathExists && d.isDirectory then Except.ok (loadDirDocs d.pdfFiles)
  else
    Except.error (PyErr.valueError
      "Directory does not exist or is not a directory")

/-! ### Spec-side definitions -/

/-- The proximity rule as the spec words it: the caption lies entirely above
the anchor (caption bottom at most anchor top) or entirely below it (caption
top at least anchor bottom), with vertical gap strictly less than a quarter of
the page height. -/
def nearbySpec (H : ℚ) (a c : Box) : Prop :=
  (c.y1 ≤ a.y0 ∧ a.y0 - c.y1 < H * (1 / 4)) ∨
    (a.y1 ≤ c.y0 ∧ c.y0 - a.y1 < H * (1 / 4))

/-- A box whose vertical extent lies inside the page of height `H`. -/
def inPageY (H : ℚ) (b : Box) : Prop :=
  0 ≤ b.y0 ∧ b.y0 ≤ b.y1 ∧ b.y1 ≤ H

/-- Full match of the ordinal shape `\d+[A-Za-z]?`. -/
def isOrdinalChars (l : List Char) : Bool :=
  let ds := l.takeWhile isDigitC
  !ds.isEmpty &&
    (match l.drop ds.length with
     | [] => true
     | [c] => isAlphaC c
     | _ => false)

/-- Full match of the ordinal shape `\d+[A-Za-z]?` on a string. -/
def isOrdinalStr (s : String) : Bool :=
  isOrdinalChars s.data

/-! ### Helper lemmas about the caption-union folds -/

theorem expandY0_le_init (y0 : ℚ) (caps : List Caption) :
    expandY0 y0 caps ≤ y0 := by
  induction caps generalizing y0 with
  | nil => exact le_refl _
  | cons c cs ih =>
    calc expandY0 y0 (c :: cs) = expandY0 (min y0 c.bbox.y0) cs := rfl
      _ ≤ min y0 c.bbox.y0 := ih _
      _ ≤ y0 := min_le_left _ _

theorem expandY0_le_mem (y0 : ℚ) (caps : List Caption) (c : Caption)
    (hc : c ∈ caps) : expandY0 y0 caps ≤ c.bbox.y0 := by
  induction caps generalizing y0 with
  | nil => cases hc
  | cons a cs ih =>
    rcases List.mem_cons.mp hc with h | h
    · subst h
      calc expandY0 y0 (c :: cs) = expandY0 (min y0 c.bbox.y0) cs := rfl
        _ ≤ min y0 c.bbox.y0 := expandY0_le_init _ _
        _ ≤ c.bbox.y0 := min_le_right _ _
    · exact ih _ h

theorem le_expandY1_init (y1 : ℚ) (caps : List Caption) :
    y1 ≤ expandY1 y1 caps := by
  induction caps generalizing y1 with
  | nil => exact le_refl _
  | cons c cs ih =>
    calc y1 ≤ max y1 c.bbox.y1 := le_max_left _ _
      _ ≤ expandY1 (max y1 c.bbox.y1) cs := ih _
      _ = expandY1 y1 (c :: cs) := rfl

theorem le_expandY1_mem (y1 : ℚ) (caps : List Caption) (c : Caption)
    (hc : c ∈ caps) : c.bbox.y1 ≤ expandY1 y1 caps := by
  induction caps generalizing y1 with
  | nil => cases hc
  | cons a cs ih =>
    rcases List.mem_cons.mp hc with h | h
    · subst h
      calc c.bbox.y1 ≤ max y1 c.bbox.y1 := le_max_right _ _
        _ ≤ expandY1 (max y1 c.bbox.y1) cs := le_expandY1_init _ _
        _ = expandY1 y1 (c :: cs) := rfl
    · exact ih _ h

/-! ### Claim theorems -/

/-- Claim C1: a caption is classified nearby an anchor iff it lies entirely
above it (caption bottom at most anchor top) or entirely below it (caption top
at least anchor bottom) with vertical gap strictly below `0.25 * H`; for
well-formed boxes a gap of exactly `0.25 * H` is not nearby. -/
theorem claim1_nearby_iff_strict (H : ℚ) (a c : Box) :
    (nearbyB H a c = true ↔ nearbySpec H a c) ∧
      (a.y0 ≤ a.y1 → c.y0 ≤ c.y1 →
        ((c.y1 ≤ a.y0 ∧ a.y0 - c.y1 = H * (1 / 4)) ∨
          (a.y1 ≤ c.y0 ∧ c.y0 - a.y1 = H * (1 / 4))) →
        nearbyB H a c = false) := by
  have hiff : nearbyB H a c = true ↔ nearbySpec H a c := by
    simp [nearbyB, nearbySpec]
  refine ⟨hiff, ?_⟩
  intro ha hc hg
  rw [Bool.eq_false_iff]
  intro htrue
  rcases hiff.mp htrue with ⟨h1, h2⟩ | ⟨h1, h2⟩ <;>
    rcases hg with ⟨g1, g2⟩ | ⟨g1, g2⟩ <;> linarith

/-- Witness for C1: on a page of height 800, a caption lying exactly 200
below the anchor is not nearby. -/
theorem claim1_witness :
    nearbyB 800 ⟨0, 300, 100, 400⟩ ⟨0, 600, 100, 620⟩ = false :=
  (claim1_nearby_iff_strict 800 ⟨0, 300, 100, 400⟩ ⟨0, 600, 100, 620⟩).2
    (by norm_num) (by norm_num) (Or.inr (by norm_num))

/-- Claim C2: when some Figure caption is nearby the anchor, the resolver
emits a Figure region, and its result does not depend on the Table captions
at all (they are only consulted when the nearby-Figure set is empty); a
resolver result carries exactly one kind. -/
theorem claim2_figure_priority (H W : ℚ) (figs tabs tabs' : List Caption)
    (img : Box)
    (hf : figs.filter (fun c => nearbyB H img c.bbox) ≠ []) :
    (∃ reg, resolveRegion H W figs tabs img = some reg ∧
      reg.kind = Kind.Figure) ∧
      resolveRegion H W figs tabs img = resolveRegion H W figs tabs' img := by
  cases hfilt : figs.filter (fun c => nearbyB H img c.bbox) with
  | nil => exact absurd hfilt hf
  | cons c0 tl =>
    have hres : ∀ t : List Caption, resolveRegion H W figs t img =
        some ⟨Kind.Figure, c0.num,
          ⟨0, max 0 (expandY0 img.y0 (c0 :: tl) - 10), W,
            min H (expandY1 img.y1 (c0 :: tl) + 10)⟩⟩ := by
      intro t
      simp only [resolveRegion, hfilt]
    exact ⟨⟨_, hres tabs, rfl⟩, (hres tabs).trans (hres tabs').symm⟩

/-- Witness for C2: a concrete page where both a Figure and a Table caption
are nearby the image; the emitted region is the Figure one. -/
theorem claim2_witness :
    (∃ reg,
      resolveRegion 800 600 [⟨⟨50, 410, 300, 430⟩, "Figure 2: results", "2"⟩]
        [⟨⟨50, 440, 300, 460⟩, "Table 1: data", "1"⟩] ⟨50, 100, 300, 400⟩ =
          some reg ∧ reg.kind = Kind.Figure) ∧
      resolveRegion 800 600 [⟨⟨50, 410, 300, 430⟩, "Figure 2: results", "2"⟩]
        [⟨⟨50, 440, 300, 460⟩, "Table 1: data", "1"⟩] ⟨50, 100, 300, 400⟩ =
        resolveRegion 800 600
          [⟨⟨50, 410, 300, 430⟩, "Figure 2: results", "2"⟩] []
          ⟨50, 100, 300, 400⟩ :=
  claim2_figure_priority 800 600
    [⟨⟨50, 410, 300, 430⟩, "Figure 2: results", "2"⟩]
    [⟨⟨50, 440, 300, 460⟩, "Table 1: data", "1"⟩] []
    ⟨50, 100, 300, 400⟩ (by
      have hn : nearbyB 800 ⟨50, 100, 300, 400⟩ ⟨50, 410, 300, 430⟩ = true := by
        norm_num [nearbyB]
      simp [List.filter_cons, hn])

/-- The padded and clamped vertical extent of `resolveRegion` stays inside the
page and covers the anchor and every unioned caption, provided all input boxes
lie inside the page vertically. -/
theorem resolve_pad_bounds (H : ℚ) (img : Box) (nf : List Caption)
    (himg : inPageY H img) (hcaps : ∀ c ∈ nf, inPageY H c.bbox) :
    0 ≤ max 0 (expandY0 img.y0 nf - 10) ∧
      max 0 (expandY0 img.y0 nf - 10) ≤ H ∧
      0 ≤ min H (expandY1 img.y1 nf + 10) ∧
      min H (expandY1 img.y1 nf + 10) ≤ H ∧
      max 0 (expandY0 img.y0 nf - 10) ≤ img.y0 ∧
      img.y1 ≤ min H (expandY1 img.y1 nf + 10) ∧
      ∀ c ∈ nf, max 0 (expandY0 img.y0 nf - 10) ≤ c.bbox.y0 ∧
        c.bbox.y1 ≤ min H (expandY1 img.y1 nf + 10) := by
  obtain ⟨h0, h01, h1H⟩ := himg
  have hH : (0 : ℚ) ≤ H := le_trans h0 (le_trans h01 h1H)
  have hu0 : expandY0 img.y0 nf ≤ img.y0 := expandY0_le_init _ _
  have hu1 : img.y1 ≤ expandY1 img.y1 nf := le_expandY1_init _ _
  refine ⟨le_max_left _ _, max_le hH (by linarith), le_min hH (by linarith),
    min_le_left _ _, max_le h0 (by linarith), le_min h1H (by linarith), ?_⟩
  intro c hc
  obtain ⟨hc0, hc01, hc1⟩ := hcaps c hc
  have hm0 := expandY0_le_mem img.y0 nf c hc
  have hm1 := le_expandY1_mem img.y1 nf c hc
  exact ⟨max_le hc0 (by linarith), le_min hc1 (by linarith)⟩

/-- Claim C3 (amended): in the image-anchored variant (`extract_images`), for
input boxes inside the page, the emitted box spans `[0, W]` horizontally,
both vertical edges lie in `[0, H]`, and the box covers the anchor's and
every nearby same-kind caption's vertical extent. (The caption-anchored
figure path of `extract_figures_and_tables` clamps only the top edge; see
the counterexample.) -/
theorem claim3_resolved_box_bounds (H W : ℚ) (figs tabs : List Caption)
    (img : Box) (reg : Region) (himg : inPageY H img)
    (hfigs : ∀ c ∈ figs, inPageY H c.bbox)
    (htabs : ∀ c ∈ tabs, inPageY H c.bbox)
    (hres : resolveRegion H W figs tabs img = some reg) :
    reg.bbox.x0 = 0 ∧ reg.bbox.x1 = W ∧
      0 ≤ reg.bbox.y0 ∧ reg.bbox.y0 ≤ H ∧ 0 ≤ reg.bbox.y1 ∧ reg.bbox.y1 ≤ H ∧
      reg.bbox.y0 ≤ img.y0 ∧ img.y1 ≤ reg.bbox.y1 ∧
      (∀ c ∈ figs, reg.kind = Kind.Figure → nearbyB H img c.bbox = true →
        reg.bbox.y0 ≤ c.bbox.y0 ∧ c.bbox.y1 ≤ reg.bbox.y1) ∧
      (∀ c ∈ tabs, reg.kind = Kind.Table → nearbyB H img c.bbox = true →
        reg.bbox.y0 ≤ c.bbox.y0 ∧ c.bbox.y1 ≤ reg.bbox.y1) := by
  cases hfig : figs.filter (fun c => nearbyB H img c.bbox) with
  | cons c0 tl =>
    simp only [resolveRegion, hfig, Option.some.injEq] at hres
    subst hres
    have hcaps : ∀ c ∈ c0 :: tl, inPageY H c.bbox := by
      intro c hc
      rw [← hfig] at hc
      exact hfigs c (List.mem_filter.mp hc).1
    obtain ⟨b1, b2, b3, b4, b5, b6, b7⟩ := resolve_pad_bounds H img (c0 :: tl)
      himg hcaps
    refine ⟨rfl, rfl, b1, b2, b3, b4, b5, b6, ?_, ?_⟩
    · intro c hc _ hnear
      have : c ∈ c0 :: tl := by
        rw [← hfig]
        exact List.mem_filter.mpr ⟨hc, hnear⟩
      exact b7 c this
    · intro c _ hk
      exact absurd hk (by simp)
  | nil =>
    cases htab : tabs.filter (fun c => nearbyB H img c.bbox) with
    | cons c0 tl =>
      simp only [resolveRegion, hfig, htab, Option.some.injEq] at hres
      subst hres
      have hcaps : ∀ c ∈ c0 :: tl, inPageY H c.bbox := by
        intro c hc
        rw [← htab] at hc
        exact htabs c (List.mem_filter.mp hc).1
      obtain ⟨b1, b2, b3, b4, b5, b6, b7⟩ := resolve_pad_bounds H img (c0 :: tl)
        himg hcaps
      refine ⟨rfl, rfl, b1, b2, b3, b4, b5, b6, ?_, ?_⟩
      · intro c _ hk
        exact absurd hk (by simp)
      · intro c hc _ hnear
        have : c ∈ c0 :: tl := by
          rw [← htab]
          exact List.mem_filter.mpr ⟨hc, hnear⟩
        exact b7 c this
    | nil =>
      simp only [resolveRegion, hfig, htab] at hres
      exact Option.noConfusion hres

/-- Counterexample to C3 as stated: the caption-anchored figure path of
`extract_figures_and_tables` does not clamp its bottom edge, so a caption
lying wholly inside an 800-high page yields a capture box with bottom 805. -/
theorem claim3_counterexample :
    extractFTPage 800 600 [⟨0, ⟨50, 780, 300, 795⟩, "Figure 7: late caption"⟩] =
      [(Kind.Figure, "7", ⟨0, 460, 600, 805⟩)] ∧ (800 : ℚ) < 805 := by
  constructor
  · have hcls : classifyBlocksFT
        [⟨0, ⟨50, 780, 300, 795⟩, "Figure 7: late caption"⟩] =
        ([⟨⟨50, 780, 300, 795⟩, "Figure 7: late caption", "7", 0⟩], []) := by
      decide
    simp only [extractFTPage, hcls, List.map_cons, List.map_nil,
      List.append_nil]
    norm_num [figCaptureBox, max_def]
  · norm_num

/-- Witness for the amended C3 at the concrete scenario page. -/
theorem claim3_witness :
    ((⟨0, 90, 600, 440⟩ : Box).x0 = 0 ∧ (⟨0, 90, 600, 440⟩ : Box).x1 = 600 ∧
      (0 : ℚ) ≤ (⟨0, 90, 600, 440⟩ : Box).y0 ∧
      (⟨0, 90, 600, 440⟩ : Box).y0 ≤ 800 ∧
      (0 : ℚ) ≤ (⟨0, 90, 600, 440⟩ : Box).y1 ∧
      (⟨0, 90, 600, 440⟩ : Box).y1 ≤ 800 ∧
      (⟨0, 90, 600, 440⟩ : Box).y0 ≤ (100 : ℚ) ∧
      (400 : ℚ) ≤ (⟨0, 90, 600, 440⟩ : Box).y1 ∧ True) := by
  have hn : nearbyB 800 ⟨50, 100, 300, 400⟩ ⟨50, 410, 300, 430⟩ = true := by
    norm_num [nearbyB]
  have hfilt : List.filter
      (fun c : Caption => nearbyB 800 ⟨50, 100, 300, 400⟩ c.bbox)
      [⟨⟨50, 410, 300, 430⟩, "Figure 2: results", "2"⟩] =
      [(⟨⟨50, 410, 300, 430⟩, "Figure 2: results", "2"⟩ : Caption)] := by
    simp [List.filter_cons, hn]
  have hres : resolveRegion 800 600
      [⟨⟨50, 410, 300, 430⟩, "Figure 2: results", "2"⟩] []
      ⟨50, 100, 300, 400⟩ =
      some ⟨Kind.Figure, "2", ⟨0, 90, 600, 440⟩⟩ := by
    simp only [resolveRegion, hfilt]
    norm_num [expandY0, expandY1, min_def, max_def]
  have h := claim3_resolved_box_bounds 800 600
    [⟨⟨50, 410, 300, 430⟩, "Figure 2: results", "2"⟩] []
    ⟨50, 100, 300, 400⟩ ⟨Kind.Figure, "2", ⟨0, 90, 600, 440⟩⟩
    (by norm_num [inPageY])
    (by
      intro c hc
      simp only [List.mem_singleton] at hc
      subst hc
      norm_num [inPageY])
    (by intro c hc; cases hc) hres
  exact ⟨h.1, h.2.1, h.2.2.1, h.2.2.2.1, h.2.2.2.2.1, h.2.2.2.2.2.1,
    h.2.2.2.2.2.2.1, h.2.2.2.2.2.2.2.1, trivial⟩

/-- One image item of a page resolves to a region when its bounding box is
found, rasterization succeeds and the region resolver returns that region. -/
theorem processImgItem_eval (W H : ℚ) (blocks : List Block)
    (imgs : List ImgItem) (figs tabs : List Caption) (b : Box) (it : ImgItem)
    (hit : it.bboxInfo = some b) (hok : it.rasterOk = true) (reg : Region)
    (hres : resolveRegion H W figs tabs b = some reg) :
    processImgItem ⟨W, H, blocks, imgs⟩ figs tabs it = some reg := by
  simp only [processImgItem, imgBbox, hit, hres, hok, if_true]

/-- A page with a single image emits exactly the region that image resolves
to. -/
theorem extractImagesPage_eval (W H : ℚ) (blocks : List Block) (it : ImgItem)
    (figs tabs : List Caption) (reg : Region)
    (hdet : detectImPage blocks = (figs, tabs))
    (hit : processImgItem ⟨W, H, blocks, [it]⟩ figs tabs it = some reg) :
    extractImagesPage ⟨W, H, blocks, [it]⟩ = [reg] := by
  simp only [extractImagesPage, hdet, List.filterMap_cons, hit,
    List.filterMap_nil]

/-- Claim C4: the spec scenario — a page of height 800 with one image at
`(50,100,300,400)` and one block reading "Figure 2: results" at
`(50,410,300,430)` yields exactly one region, a Figure with ordinal "2",
spanning the full page width with vertical extent `[90, 440]`. -/
theorem claim4_scenario (W : ℚ) :
    extractImagesPage ⟨W, 800, [⟨0, ⟨50, 410, 300, 430⟩, "Figure 2: results"⟩],
      [⟨some ⟨50, 100, 300, 400⟩, true⟩]⟩ =
      [⟨Kind.Figure, "2", ⟨0, 90, W, 440⟩⟩] := by
  have hdet : detectImPage [⟨0, ⟨50, 410, 300, 430⟩, "Figure 2: results"⟩] =
      ([⟨⟨50, 410, 300, 430⟩, "Figure 2: results", "2"⟩], []) := by decide
  have hn : nearbyB 800 ⟨50, 100, 300, 400⟩ ⟨50, 410, 300, 430⟩ = true := by
    norm_num [nearbyB]
  have hfilt : List.filter
      (fun c : Caption => nearbyB 800 ⟨50, 100, 300, 400⟩ c.bbox)
      [⟨⟨50, 410, 300, 430⟩, "Figure 2: results", "2"⟩] =
      [(⟨⟨50, 410, 300, 430⟩, "Figure 2: results", "2"⟩ : Caption)] := by
    simp [List.filter_cons, hn]
  have hres : resolveRegion 800 W
      [⟨⟨50, 410, 300, 430⟩, "Figure 2: results", "2"⟩] []
      ⟨50, 100, 300, 400⟩ = some ⟨Kind.Figure, "2", ⟨0, 90, W, 440⟩⟩ := by
    simp only [resolveRegion, hfilt]
    norm_num [expandY0, expandY1, min_def, max_def]
  exact extractImagesPage_eval W 800
    [⟨0, ⟨50, 410, 300, 430⟩, "Figure 2: results"⟩]
    ⟨some ⟨50, 100, 300, 400⟩, true⟩
    [⟨⟨50, 410, 300, 430⟩, "Figure 2: results", "2"⟩] []
    ⟨Kind.Figure, "2", ⟨0, 90, W, 440⟩⟩ hdet
    (processImgItem_eval W 800
      [⟨0, ⟨50, 410, 300, 430⟩, "Figure 2: results"⟩]
      [⟨some ⟨50, 100, 300, 400⟩, true⟩]
      [⟨⟨50, 410, 300, 430⟩, "Figure 2: results", "2"⟩] []
      ⟨50, 100, 300, 400⟩ ⟨some ⟨50, 100, 300, 400⟩, true⟩ rfl rfl
      ⟨Kind.Figure, "2", ⟨0, 90, W, 440⟩⟩ hres)

/-- Claim C9: an emitted region takes its ordinal (and hence its output
filename) from the first nearby same-kind caption in block-discovery order;
the other nearby captions enter only through the vertical-extent union. -/
theorem claim9_first_caption_ordinal (H W : ℚ) (figs tabs : List Caption)
    (img : Box) (reg : Region)
    (hres : resolveRegion H W figs tabs img = some reg) :
    (reg.kind = Kind.Figure →
      ∃ c, (figs.filter (fun c => nearbyB H img c.bbox)).head? = some c ∧
        reg.num = c.num ∧ outputName reg = "figure_" ++ c.num ++ ".png" ∧
        reg.bbox = ⟨0,
          max 0 (expandY0 img.y0
            (figs.filter (fun c => nearbyB H img c.bbox)) - 10), W,
          min H (expandY1 img.y1
            (figs.filter (fun c => nearbyB H img c.bbox)) + 10)⟩) ∧
    (reg.kind = Kind.Table →
      ∃ c, (tabs.filter (fun c => nearbyB H img c.bbox)).head? = some c ∧
        reg.num = c.num ∧ outputName reg = "table_" ++ c.num ++ ".png" ∧
        reg.bbox = ⟨0,
          max 0 (expandY0 img.y0
            (tabs.filter (fun c => nearbyB H img c.bbox)) - 10), W,
          min H (expandY1 img.y1
            (tabs.filter (fun c => nearbyB H img c.bbox)) + 10)⟩) := by
  cases hfig : figs.filter (fun c => nearbyB H img c.bbox) with
  | cons c0 tl =>
    simp only [resolveRegion, hfig, Option.some.injEq] at hres
    subst hres
    exact ⟨fun _ => ⟨c0, rfl, rfl, rfl, rfl⟩, fun hk => absurd hk (by simp)⟩
  | nil =>
    cases htab : tabs.filter (fun c => nearbyB H img c.bbox) with
    | cons c0 tl =>
      simp only [resolveRegion, hfig, htab, Option.some.injEq] at hres
      subst hres
      exact ⟨fun hk => absurd hk (by simp), fun _ => ⟨c0, rfl, rfl, rfl, rfl⟩⟩
    | nil =>
      simp only [resolveRegion, hfig, htab] at hres
      exact Option.noConfusion hres

/-- A `[A-Za-z]` character is not a `\d` character. -/
theorem alpha_not_digit (c : Char) (h : isAlphaC c = true) : isDigitC c = false := by
  simp only [isAlphaC, Bool.or_eq_true, Bool.and_eq_true, decide_eq_true_eq] at h
  have h9A : ('9' : Char) < 'A' := by decide
  have h9a : ('9' : Char) < 'a' := by decide
  have hc9 : ¬ (c ≤ '9') := by
    rcases h with ⟨h1, _⟩ | ⟨h1, _⟩
    · exact not_le.mpr (lt_of_lt_of_le h9A h1)
    · exact not_le.mpr (lt_of_lt_of_le h9a h1)
  simp [isDigitC, decide_eq_false hc9]

/-- `takeWhile` stops exactly at an appended non-matching element. -/
theorem takeWhile_append_not {p : Char → Bool} {ds : List Char} {c : Char}
    (h : ∀ x ∈ ds, p x = true) (hc : p c = false) :
    (ds ++ [c]).takeWhile p = ds := by
  induction ds with
  | nil => simp [List.takeWhile, hc]
  | cons d t ih =>
    have hd : p d = true := h d (by simp)
    simp only [List.cons_append, List.takeWhile_cons, hd, if_true]
    rw [ih (fun x hx => h x (by simp [hx]))]

/-- Every capture produced by `numAfter` matches `\d+[A-Za-z]?` in full. -/
theorem numAfter_shape {r s : List Char} (h : numAfter r = some s) :
    isOrdinalChars s = true := by
  unfold numAfter at h
  set r1 := r.dropWhile pySpace with hr1
  set ds := r1.takeWhile isDigitC with hds
  have hall : ∀ x ∈ ds, isDigitC x = true := by
    intro x hx
    rw [hds] at hx
    exact List.mem_takeWhile_imp hx
  by_cases hds0 : ds.isEmpty
  · rw [if_pos hds0] at h
    exact Option.noConfusion h
  · rw [if_neg hds0] at h
    have hself : ds.takeWhile isDigitC = ds := List.takeWhile_eq_self_iff.mpr hall
    cases hdrop : r1.drop ds.length with
    | nil =>
      rw [hdrop] at h
      injection h with h
      subst h
      simp [isOrdinalChars, hself, List.drop_length, hds0]
    | cons c rest =>
      rw [hdrop] at h
      dsimp only at h
      by_cases hc : isAlphaC c = true
      · rw [if_pos hc] at h
        injection h with h
        subst h
        have htw : (ds ++ [c]).takeWhile isDigitC = ds :=
          takeWhile_append_not hall (alpha_not_digit c hc)
        simp [isOrdinalChars, htw, List.drop_left, hds0, hc]
      · rw [if_neg hc] at h
        injection h with h
        subst h
        simp [isOrdinalChars, hself, List.drop_length, hds0]

/-- Transport of `numAfter_shape` through the keyword alternation. -/
theorem findSome?_numAfter_shape :
    ∀ (cands : List (List Char)) (s : List Char),
      cands.findSome? numAfter = some s → isOrdinalChars s = true := by
  intro cands
  induction cands with
  | nil => intro s h; exact absurd h (by simp)
  | cons a t ih =>
    intro s h
    rw [List.findSome?_cons] at h
    cases ha : numAfter a with
    | some v =>
      rw [ha] at h
      injection h with h
      subst h
      exact numAfter_shape ha
    | none =>
      rw [ha] at h
      exact ih s h

/-- Every capture returned by the figure ordinal search matches
`\d+[A-Za-z]?` in full. -/
theorem searchFigNum_shape :
    ∀ (l s : List Char), searchFigNum l = some s → isOrdinalChars s = true := by
  intro l
  induction l with
  | nil => intro s h; exact absurd h (by simp [searchFigNum])
  | cons c tl ih =>
    intro s h
    unfold searchFigNum at h
    cases ht : tryFigNumAt (c :: tl) with
    | some v =>
      rw [ht] at h
      injection h with h
      subst h
      exact findSome?_numAfter_shape _ _ ht
    | none =>
      rw [ht] at h
      exact ih s h

/-- Every capture returned by the table ordinal search matches
`\d+[A-Za-z]?` in full. -/
theorem searchTableNum_shape :
    ∀ (l s : List Char), searchTableNum l = some s → isOrdinalChars s = true := by
  intro l
  induction l with
  | nil => intro s h; exact absurd h (by simp [searchTableNum])
  | cons c tl ih =>
    intro s h
    unfold searchTableNum at h
    cases ht : tryTableNumAt (c :: tl) with
    | some v =>
      rw [ht] at h
      injection h with h
      subst h
      exact findSome?_numAfter_shape _ _ ht
    | none =>
      rw [ht] at h
      exact ih s h

/-- A string matching `\d+[A-Za-z]?` is never the literal "unknown". -/
theorem ord_ne_unknown {l : List Char} (h : isOrdinalChars l = true) :
    String.mk l ≠ "unknown" := by
  intro he
  have h2 : l = "unknown".data := congrArg String.data he
  rw [h2] at h
  exact absurd h (by decide)
/-- Every figure caption produced by the classifier points back to a
figure-matching text block, and carries that block's stripped text and the
ordinal computed from it. -/
theorem classifyFTAux_fig_mem :
    ∀ (bs : List Block) (i : Nat) (c : CaptionFT),
      c ∈ (classifyFTAux i bs).1 →
      ∃ j b, bs[j]? = some b ∧ c.blockIdx = i + j ∧ b.type = 0 ∧
        isFigureCaptionFT (stripChars b.text.data) = true ∧
        c.text = String.mk (stripChars b.text.data) ∧
        c.num = String.mk ((searchFigNum (stripChars b.text.data)).getD
          "unknown".data) := by
  intro bs
  induction bs with
  | nil => intro i c hc; exact absurd hc (by simp [classifyFTAux])
  | cons hd tl ih =>
    intro i c hc
    simp only [classifyFTAux] at hc
    have hup : c ∈ (classifyFTAux (i + 1) tl).1 →
        ∃ j b, (hd :: tl)[j]? = some b ∧ c.blockIdx = i + j ∧ b.type = 0 ∧
          isFigureCaptionFT (stripChars b.text.data) = true ∧
          c.text = String.mk (stripChars b.text.data) ∧
          c.num = String.mk ((searchFigNum (stripChars b.text.data)).getD
            "unknown".data) := by
      intro hcrest
      obtain ⟨j, b, h1, h2, h3, h4, h5, h6⟩ := ih (i + 1) c hcrest
      exact ⟨j + 1, b, by simpa using h1, by omega, h3, h4, h5, h6⟩
    by_cases h0 : (hd.type == 0) = true
    · rw [if_pos h0] at hc
      by_cases hf : isFigureCaptionFT (stripChars hd.text.data) = true
      · rw [if_pos hf] at hc
        dsimp only at hc
        rcases List.mem_cons.mp hc with h | h
        · subst h
          exact ⟨0, hd, by simp, by simp, by simpa using h0, hf, rfl, rfl⟩
        · exact hup h
      · rw [if_neg hf] at hc
        by_cases ht : isTableCaptionFT (stripChars hd.text.data) = true
        · rw [if_pos ht] at hc
          exact hup hc
        · rw [if_neg ht] at hc
          exact hup hc
    · rw [if_neg h0] at hc
      exact hup hc

/-- Every table caption produced by the classifier points back to a text
block that fails the figure patterns and matches a table pattern. -/
theorem classifyFTAux_tab_mem :
    ∀ (bs : List Block) (i : Nat) (c : CaptionFT),
      c ∈ (classifyFTAux i bs).2 →
      ∃ j b, bs[j]? = some b ∧ c.blockIdx = i + j ∧ b.type = 0 ∧
        isFigureCaptionFT (stripChars b.text.data) = false ∧
        isTableCaptionFT (stripChars b.text.data) = true ∧
        c.text = String.mk (stripChars b.text.data) ∧
        c.num = String.mk ((searchTableNum (stripChars b.text.data)).getD
          "unknown".data) := by
  intro bs
  induction bs with
  | nil => intro i c hc; exact absurd hc (by simp [classifyFTAux])
  | cons hd tl ih =>
    intro i c hc
    simp only [classifyFTAux] at hc
    have hup : c ∈ (classifyFTAux (i + 1) tl).2 →
        ∃ j b, (hd :: tl)[j]? = some b ∧ c.blockIdx = i + j ∧ b.type = 0 ∧
          isFigureCaptionFT (stripChars b.text.data) = false ∧
          isTableCaptionFT (stripChars b.text.data) = true ∧
          c.text = String.mk (stripChars b.text.data) ∧
          c.num = String.mk ((searchTableNum (stripChars b.text.data)).getD
            "unknown".data) := by
      intro hcrest
      obtain ⟨j, b, h1, h2, h3, h4, h5, h6, h7⟩ := ih (i + 1) c hcrest
      exact ⟨j + 1, b, by simpa using h1, by omega, h3, h4, h5, h6, h7⟩
    by_cases h0 : (hd.type == 0) = true
    · rw [if_pos h0] at hc
      by_cases hf : isFigureCaptionFT (stripChars hd.text.data) = true
      · rw [if_pos hf] at hc
        exact hup hc
      · rw [if_neg hf] at hc
        by_cases ht : isTableCaptionFT (stripChars hd.text.data) = true
        · rw [if_pos ht] at hc
          dsimp only at hc
          rcases List.mem_cons.mp hc with h | h
          · subst h
            exact ⟨0, hd, by simp, by simp, by simpa using h0,
              Bool.eq_false_iff.mpr hf, ht, rfl, rfl⟩
          · exact hup h
        · rw [if_neg ht] at hc
          exact hup hc
    · rw [if_neg h0] at hc
      exact hup hc

/-- Every figure-matching text block yields a figure caption with its
index. -/
theorem classifyFTAux_fig_complete :
    ∀ (bs : List Block) (i j : Nat) (b : Block),
      bs[j]? = some b → b.type = 0 →
      isFigureCaptionFT (stripChars b.text.data) = true →
      ∃ c ∈ (classifyFTAux i bs).1, c.blockIdx = i + j := by
  intro bs
  induction bs with
  | nil => intro i j b h; simp at h
  | cons hd tl ih =>
    intro i j b hj h0 hf
    cases j with
    | zero =>
      simp only [List.getElem?_cons_zero, Option.some.injEq] at hj
      subst hj
      have h0b : (hd.type == 0) = true := by simp [h0]
      refine ⟨⟨hd.bbox, String.mk (stripChars hd.text.data),
        String.mk ((searchFigNum (stripChars hd.text.data)).getD
          "unknown".data), i⟩, ?_, by simp⟩
      simp only [classifyFTAux, if_pos h0b, if_pos hf]
      exact List.mem_cons_self _ _
    | succ j =>
      simp only [List.getElem?_cons_succ] at hj
      obtain ⟨c, hc, hidx⟩ := ih (i + 1) j b hj h0 hf
      refine ⟨c, ?_, by omega⟩
      simp only [classifyFTAux]
      split
      · split
        · exact List.mem_cons_of_mem _ hc
        · split
          · exact hc
          · exact hc
      · exact hc
/-- Claim C5: a text block matching a figure pattern is classified as a
Figure caption and never as a Table caption (the figure check precedes and
short-circuits), and the two output caption lists are disjoint over
blocks. -/
theorem claim5_figure_priority_detect :
    (∀ (blocks : List Block) (i : Nat) (b : Block),
      blocks[i]? = some b → b.type = 0 →
      isFigureCaptionFT (stripChars b.text.data) = true →
      (∃ c ∈ (classifyBlocksFT blocks).1, c.blockIdx = i) ∧
        ∀ c ∈ (classifyBlocksFT blocks).2, c.blockIdx ≠ i) ∧
    ∀ (blocks : List Block), ∀ cf ∈ (classifyBlocksFT blocks).1,
      ∀ ct ∈ (classifyBlocksFT blocks).2, cf.blockIdx ≠ ct.blockIdx := by
  constructor
  · intro blocks i b hb h0 hf
    constructor
    · obtain ⟨c, hc, hidx⟩ := classifyFTAux_fig_complete blocks 0 i b hb h0 hf
      exact ⟨c, hc, by omega⟩
    · intro c hc heq
      obtain ⟨j', b', h1', h2', _, h4', _, _, _⟩ :=
        classifyFTAux_tab_mem blocks 0 c hc
      have hji : j' = i := by omega
      subst hji
      rw [hb] at h1'
      injection h1' with hb'
      rw [← hb'] at h4'
      rw [hf] at h4'
      exact Bool.noConfusion h4'
  · intro blocks cf hcf ct hct heq
    obtain ⟨j, b, h1, h2, _, h4, _, _⟩ := classifyFTAux_fig_mem blocks 0 cf hcf
    obtain ⟨j', b', h1', h2', _, h4', _, _, _⟩ :=
      classifyFTAux_tab_mem blocks 0 ct hct
    have hj : j = j' := by omega
    subst hj
    rw [h1] at h1'
    injection h1' with hb
    rw [← hb] at h4'
    rw [h4] at h4'
    exact Bool.noConfusion h4'

/-- Witness for C5 on a one-block page. -/
theorem claim5_witness :
    (∃ c ∈ (classifyBlocksFT [⟨0, ⟨0, 0, 10, 10⟩, "Figure 1: overview"⟩]).1,
      c.blockIdx = 0) ∧
      ∀ c ∈ (classifyBlocksFT [⟨0, ⟨0, 0, 10, 10⟩, "Figure 1: overview"⟩]).2,
        c.blockIdx ≠ 0 :=
  claim5_figure_priority_detect.1 [⟨0, ⟨0, 0, 10, 10⟩, "Figure 1: overview"⟩] 0
    ⟨0, ⟨0, 0, 10, 10⟩, "Figure 1: overview"⟩ rfl rfl (by decide)

/-- Claim C6: every caption's ordinal either fully matches `\d+[A-Za-z]?`
or is the literal "unknown", and "unknown" occurs exactly when the
ordinal-extraction regex found no match in the classified text. -/
theorem claim6_ordinal_shape :
    ∀ (blocks : List Block) (c : CaptionFT),
      (c ∈ (classifyBlocksFT blocks).1 →
        (isOrdinalStr c.num = true ∨ c.num = "unknown") ∧
          (c.num = "unknown" ↔ searchFigNum c.text.data = none)) ∧
      (c ∈ (classifyBlocksFT blocks).2 →
        (isOrdinalStr c.num = true ∨ c.num = "unknown") ∧
          (c.num = "unknown" ↔ searchTableNum c.text.data = none)) := by
  intro blocks c
  constructor
  · intro hc
    obtain ⟨j, b, _, _, _, _, h5, h6⟩ := classifyFTAux_fig_mem blocks 0 c hc
    have htext : c.text.data = stripChars b.text.data := by rw [h5]
    cases hs : searchFigNum (stripChars b.text.data) with
    | none =>
      have hnum : c.num = "unknown" := by rw [h6, hs]; rfl
      exact ⟨Or.inr hnum, by simp [hnum, htext, hs]⟩
    | some v =>
      have hshape : isOrdinalChars v = true := searchFigNum_shape _ _ hs
      have hnum : c.num = String.mk v := by rw [h6, hs]; rfl
      have hne : c.num ≠ "unknown" := by
        rw [hnum]
        exact ord_ne_unknown hshape
      refine ⟨Or.inl (by rw [hnum]; exact hshape), ?_, ?_⟩
      · intro h
        exact absurd h hne
      · intro h
        rw [htext, hs] at h
        exact Option.noConfusion h
  · intro hc
    obtain ⟨j, b, _, _, _, _, _, h5, h6⟩ := classifyFTAux_tab_mem blocks 0 c hc
    have htext : c.text.data = stripChars b.text.data := by rw [h5]
    cases hs : searchTableNum (stripChars b.text.data) with
    | none =>
      have hnum : c.num = "unknown" := by rw [h6, hs]; rfl
      exact ⟨Or.inr hnum, by simp [hnum, htext, hs]⟩
    | some v =>
      have hshape : isOrdinalChars v = true := searchTableNum_shape _ _ hs
      have hnum : c.num = String.mk v := by rw [h6, hs]; rfl
      have hne : c.num ≠ "unknown" := by
        rw [hnum]
        exact ord_ne_unknown hshape
      refine ⟨Or.inl (by rw [hnum]; exact hshape), ?_, ?_⟩
      · intro h
        exact absurd h hne
      · intro h
        rw [htext, hs] at h
        exact Option.noConfusion h

/-- Witness for C6: the spec's "Table 3A: summary" block gets ordinal
"3A". -/
theorem claim6_witness :
    (isOrdinalStr "3A" = true ∨ ("3A" : String) = "unknown") ∧
      (("3A" : String) = "unknown" ↔
        searchTableNum "Table 3A: summary".data = none) :=
  (claim6_ordinal_shape [⟨0, ⟨0, 0, 10, 10⟩, "Table 3A: summary"⟩]
    ⟨⟨0, 0, 10, 10⟩, "Table 3A: summary", "3A", 0⟩).2 (by decide)
/-- Unfolding of the directory loop over a first file (events). -/
theorem loadDirEvents_cons (f : PdfFile) (fs : List PdfFile) :
    loadDirEvents (f :: fs) = (processFile f).1 ++ loadDirEvents fs := by
  simp [loadDirEvents]

/-- Unfolding of the directory loop over a first file (documents). -/
theorem loadDirDocs_cons (f : PdfFile) (fs : List PdfFile) :
    loadDirDocs (f :: fs) = (processFile f).2 ++ loadDirDocs fs := by
  simp [loadDirDocs]

/-- The directory loop distributes over list append (events). -/
theorem loadDirEvents_append (a b : List PdfFile) :
    loadDirEvents (a ++ b) = loadDirEvents a ++ loadDirEvents b := by
  simp [loadDirEvents]

/-- The directory loop distributes over list append (documents). -/
theorem loadDirDocs_append (a b : List PdfFile) :
    loadDirDocs (a ++ b) = loadDirDocs a ++ loadDirDocs b := by
  simp [loadDirDocs]

/-- Claim C7 (amended): in the `pdfParser.py`/`parser.py` variants a file
whose path contains "_output.pdf" triggers no extraction and no parsing and
contributes no document — the whole run behaves as if such files were not
globbed. (The `loader.py` variant has no such skip; see the
counterexample.) -/
theorem claim7_skip_in_pdfparser (f : PdfFile) (files : List PdfFile) :
    (containsSubstr "_output.pdf".data f.path.data = true →
      processFile f = ([], [])) ∧
    loadDirEvents files = loadDirEvents (files.filter
      (fun g => !containsSubstr "_output.pdf".data g.path.data)) ∧
    loadDirDocs files = loadDirDocs (files.filter
      (fun g => !containsSubstr "_output.pdf".data g.path.data)) := by
  have hskip : ∀ g : PdfFile,
      containsSubstr "_output.pdf".data g.path.data = true →
      processFile g = ([], []) := by
    intro g h
    simp [processFile, h]
  refine ⟨hskip f, ?_, ?_⟩
  · induction files with
    | nil => rfl
    | cons g gs ih =>
      cases hg : containsSubstr "_output.pdf".data g.path.data
      · simp [List.filter_cons, hg, loadDirEvents_cons, ih]
      · simp [List.filter_cons, hg, loadDirEvents_cons, hskip g hg, ih]
  · induction files with
    | nil => rfl
    | cons g gs ih =>
      cases hg : containsSubstr "_output.pdf".data g.path.data
      · simp [List.filter_cons, hg, loadDirDocs_cons, ih]
      · simp [List.filter_cons, hg, loadDirDocs_cons, hskip g hg, ih]

/-- Witness for C7: a concrete "_output.pdf" file is fully skipped. -/
theorem claim7_witness :
    processFile ⟨"prior/run_output.pdf", Except.ok 3⟩ = ([], []) :=
  (claim7_skip_in_pdfparser ⟨"prior/run_output.pdf", Except.ok 3⟩ []).1
    (by decide)

/-- Counterexample to C7 as stated: `loader.py`'s `load_from_directory`
parses a "_output.pdf" file and returns a document for it. -/
theorem claim7_counterexample :
    loaderLoadFiles [⟨"runs/report_output.pdf", Except.ok 7⟩] = [7] ∧
      containsSubstr "_output.pdf".data "runs/report_output.pdf".data = true :=
  ⟨rfl, by decide⟩

/-- Claim C8: a failing image item (missing bounding box or rasterization
failure) is skipped without affecting the other items of its page, the other
pages, or the document loop; a document whose parse fails contributes no
document while the scan continues over the surrounding files. -/
theorem claim8_failure_locality (W H : ℚ) (blocks : List Block)
    (pre post : List ImgItem) (bad : ImgItem) (pgs1 pgs2 : List PageIm)
    (dpre dpost : List PdfFile) (dbad : PdfFile) (msg : String)
    (hfail : imgBbox blocks bad = none ∨ bad.rasterOk = false)
    (hparse : dbad.parse = Except.error msg) :
    extractImagesPage ⟨W, H, blocks, pre ++ bad :: post⟩ =
      extractImagesPage ⟨W, H, blocks, pre ++ post⟩ ∧
    extractImagesDoc (pgs1 ++ ⟨W, H, blocks, pre ++ bad :: post⟩ :: pgs2) =
      extractImagesDoc (pgs1 ++ ⟨W, H, blocks, pre ++ post⟩ :: pgs2) ∧
    loadDirDocs (dpre ++ dbad :: dpost) = loadDirDocs (dpre ++ dpost) ∧
    loadDirEvents (dpre ++ dbad :: dpost) =
      loadDirEvents dpre ++ (processFile dbad).1 ++ loadDirEvents dpost := by
  have hnone : ∀ figs tabs,
      processImgItem ⟨W, H, blocks, pre ++ bad :: post⟩ figs tabs bad = none := by
    intro figs tabs
    rcases hfail with h | h
    · simp [processImgItem, h]
    · simp only [processImgItem]
      cases hb : imgBbox blocks bad with
      | none => rfl
      | some b =>
        dsimp only
        cases hr : resolveRegion H W figs tabs b with
        | none => rfl
        | some reg => simp [h]
  have hsame : ∀ figs tabs,
      processImgItem ⟨W, H, blocks, pre ++ post⟩ figs tabs =
      processImgItem ⟨W, H, blocks, pre ++ bad :: post⟩ figs tabs :=
    fun _ _ => rfl
  have hpage : extractImagesPage ⟨W, H, blocks, pre ++ bad :: post⟩ =
      extractImagesPage ⟨W, H, blocks, pre ++ post⟩ := by
    simp only [extractImagesPage, hsame, List.filterMap_append,
      List.filterMap_cons, hnone]
  have hdocs2 : (processFile dbad).2 = [] := by
    simp only [processFile, hparse]
    split <;> rfl
  refine ⟨hpage, ?_, ?_, ?_⟩
  · simp [extractImagesDoc, List.map_append, List.map_cons, hpage]
  · simp [loadDirDocs_append, loadDirDocs_cons, hdocs2]
  · simp [loadDirEvents_append, loadDirEvents_cons]

/-- Witness for C8 on a one-item page and a one-file directory. -/
theorem claim8_witness :
    extractImagesPage ⟨600, 800, [], [⟨none, true⟩]⟩ =
      extractImagesPage ⟨600, 800, [], []⟩ ∧
    extractImagesDoc [⟨600, 800, [], [⟨none, true⟩]⟩] =
      extractImagesDoc [⟨600, 800, [], []⟩] ∧
    loadDirDocs [⟨"bad.pdf", Except.error "boom"⟩] = loadDirDocs [] ∧
    loadDirEvents [⟨"bad.pdf", Except.error "boom"⟩] =
      loadDirEvents [] ++ (processFile ⟨"bad.pdf", Except.error "boom"⟩).1 ++
        loadDirEvents [] := by
  have h := claim8_failure_locality 600 800 [] [] [] ⟨none, true⟩ [] []
    [] [] ⟨"bad.pdf", Except.error "boom"⟩ "boom" (Or.inl rfl) rfl
  exact ⟨h.1, by simpa using h.2.1, by simpa using h.2.2.1, by simpa using h.2.2.2⟩

/-- Claim C10: `load_from_directory` raises `ValueError` iff the path is
missing or not a directory, and an existing directory with no PDF files
yields the empty list without raising. -/
theorem claim10_valueerror_iff (d : DirFS) :
    ((∃ m, loadFromDirectory d = Except.error (PyErr.valueError m)) ↔
      ¬(d.pathExists = true ∧ d.isDirectory = true)) ∧
    (d.pathExists = true → d.isDirectory = true → d.pdfFiles = [] →
      loadFromDirectory d = Except.ok []) := by
  constructor
  · cases hp : d.pathExists <;> cases hd : d.isDirectory <;>
      simp [loadFromDirectory, hp, hd]
  · intro h1 h2 h3
    simp [loadFromDirectory, h1, h2, h3, loadDirDocs]

/-- Witness for C10 on an existing empty directory. -/
theorem claim10_witness : loadFromDirectory ⟨true, true, []⟩ = Except.ok [] :=
  (claim10_valueerror_iff ⟨true, true, []⟩).2 rfl rfl rfl

/-- Witness for C9: with two nearby Figure captions, the ordinal comes from
the first one in discovery order. -/
theorem claim9_witness :
    ∃ c, (List.filter
        (fun c : Caption => nearbyB 800 ⟨50, 100, 300, 400⟩ c.bbox)
        [⟨⟨50, 410, 300, 430⟩, "Figure 2: results", "2"⟩,
          ⟨⟨50, 440, 300, 460⟩, "Figure 9: extra", "9"⟩]).head? = some c ∧
      (⟨Kind.Figure, "2", ⟨0, 90, 600, 470⟩⟩ : Region).num = c.num := by
  have hnA : nearbyB 800 ⟨50, 100, 300, 400⟩ ⟨50, 410, 300, 430⟩ = true := by
    norm_num [nearbyB]
  have hnB : nearbyB 800 ⟨50, 100, 300, 400⟩ ⟨50, 440, 300, 460⟩ = true := by
    norm_num [nearbyB]
  have hfilt : List.filter
      (fun c : Caption => nearbyB 800 ⟨50, 100, 300, 400⟩ c.bbox)
      [⟨⟨50, 410, 300, 430⟩, "Figure 2: results", "2"⟩,
        ⟨⟨50, 440, 300, 460⟩, "Figure 9: extra", "9"⟩] =
      [(⟨⟨50, 410, 300, 430⟩, "Figure 2: results", "2"⟩ : Caption),
        ⟨⟨50, 440, 300, 460⟩, "Figure 9: extra", "9"⟩] := by
    simp [List.filter_cons, hnA, hnB]
  have hres : resolveRegion 800 600
      [⟨⟨50, 410, 300, 430⟩, "Figure 2: results", "2"⟩,
        ⟨⟨50, 440, 300, 460⟩, "Figure 9: extra", "9"⟩] []
      ⟨50, 100, 300, 400⟩ =
      some ⟨Kind.Figure, "2", ⟨0, 90, 600, 470⟩⟩ := by
    simp only [resolveRegion, hfilt]
    norm_num [expandY0, expandY1, min_def, max_def]
  obtain ⟨c, h1, h2, _, _⟩ := (claim9_first_caption_ordinal 800 600
    [⟨⟨50, 410, 300, 430⟩, "Figure 2: results", "2"⟩,
      ⟨⟨50, 440, 300, 460⟩, "Figure 9: extra", "9"⟩] []
    ⟨50, 100, 300, 400⟩ ⟨Kind.Figure, "2", ⟨0, 90, 600, 470⟩⟩ hres).1 rfl
  exact ⟨c, h1, h2⟩
end RAG
